import Mathlib

/-!
# Frame selection and incremental export engine of `video_tool`

A shallow embedding of the selection/export core of `src/main.cpp`
(`app_impl::insert_selection`, `start_export`, `poll_export`, `shuffle_indices`,
`process_export`) together with the properties proved about it.

Modelling conventions

* `int` values are `Int`; the two integer conversions the code performs
  (`static_cast<int>` of a container size, `static_cast<std::size_t>` of an
  `int`) are modelled with their modular reductions.
* `std::set<int>` is the strictly ascending list of its elements (its iteration
  order); `std::vector<int>` is a list.
* A C++ exception or undefined behaviour is an `Except.error`; loops carry a
  fuel argument that the callers instantiate with the trip count, and running
  out of it is the error `exn.out_of_fuel`.
* The outside world (clock, video capture, pseudo random generator) is passed in
  as data: every behaviour of the world is some value of that data. Calls into
  OpenCV (`set`, `read`, `cv::resize`, `cv::imwrite`) return; a failed seek or
  read shows as the error that `poll_export` logs for it.
* Loop counters that the loop condition keeps below an `int` bound (`i <
  m_num_frames`, `i < static_cast<int>(in.size())`, the export cursor) are
  incremented without a check: the increment cannot overflow there.
-/

namespace VideoTool

/-! ## Machine integers -/

/-- Largest value of `int`. -/
def INT_MAX : Int := 2147483647

/-- Conversion `static_cast<int>(n)` of a `std::size_t`: reduction modulo `2^32`
into the signed range. -/
def static_cast_int (n : Nat) : Int :=
  if n % 4294967296 < 2147483648 then ((n % 4294967296 : Nat) : Int)
  else ((n % 4294967296 : Nat) : Int) - 4294967296

/-- Conversion `static_cast<std::size_t>(i)` of an `int` (64-bit `size_t`). -/
def static_cast_size_t (i : Int) : Nat :=
  (i % 18446744073709551616).toNat

/-! ## Failure modes -/

/-- Ways in which a member function can fail to return normally. -/
inductive exn where
  /-- The exception `std::out_of_range`, thrown by `std::vector::at`. -/
  | out_of_range
  /-- Undefined behaviour: signed overflow or an iterator moved out of its range. -/
  | undefined_behaviour
  /-- The loop model ran out of fuel. -/
  | out_of_fuel
  deriving DecidableEq, Repr

deriving instance DecidableEq for Except

/-! ## Containers -/

/-- Membership test `m.find(i) != m.end()` on a `std::set<int>`. -/
def set_find (m : List Int) (i : Int) : Bool :=
  m.contains i

/-- Insertion `m.emplace(x)` into a `std::set<int>`: the key is placed at its
position in the ascending order, and nothing happens when it is already there. -/
def set_emplace : List Int → Int → List Int
  | [], x => [x]
  | y :: ys, x =>
    if x < y then x :: y :: ys
    else if x = y then y :: ys
    else y :: set_emplace ys x

/-- Dereference `*std::next(m.begin(), n)` of a `std::set<int>`: the `n`-th
element in iteration order; moving the iterator before the beginning or to the
end and dereferencing it is undefined. -/
def set_next_begin (m : List Int) (n : Int) : Except exn Int :=
  if 0 ≤ n then
    match m[n.toNat]? with
    | some x => .ok x
    | none => .error .undefined_behaviour
  else .error .undefined_behaviour

/-- Bounds-checked access `v.at(n)` with an `int` argument: the argument is
converted to `std::size_t`, and an index that is not below the size throws. -/
def vector_at (v : List Int) (n : Int) : Except exn Int :=
  match v[static_cast_size_t n]? with
  | some x => .ok x
  | none => .error .out_of_range

/-- Resizing `v.resize(n)`: keeps the first `n` elements and pads with
value-initialised (zero) elements when `n` exceeds the size. -/
def vector_resize (v : List Int) (n : Nat) : List Int :=
  v.take n ++ List.replicate (n - v.length) 0

/-! ## Selection store -/

/-- The `selection` struct: an inclusive span of frame indices. -/
structure selection where
  offset : Int
  end_offset : Int
  deriving DecidableEq, Repr

/-- The loop `for (int i = s.offset; i <= s.end_offset; i++) m.emplace(i)` from
the loop variable `i` on. Incrementing `i` at `INT_MAX` is a signed overflow. -/
def insert_selection_loop (end_offset : Int) : Nat → Int → List Int → Except exn (List Int)
  | 0, _, _ => .error .out_of_fuel
  | fuel + 1, i, m =>
    if i ≤ end_offset then
      if i = INT_MAX then .error .undefined_behaviour
      else insert_selection_loop end_offset fuel (i + 1) (set_emplace m i)
    else .ok m

/-- The member function `app_impl::insert_selection` acting on `m_frame_indices`. -/
def insert_selection (s : selection) (m_frame_indices : List Int) : Except exn (List Int) :=
  insert_selection_loop s.end_offset ((s.end_offset - s.offset).toNat + 2) s.offset m_frame_indices

/-! ## Negative sampler -/

/-- The pseudo random generator as the export sees it: `draws k` is the value
the generator supplies for the `k`-th request and `used` counts the requests
made so far. -/
structure rng_state where
  draws : Nat → Nat
  used : Nat

/-- A draw `dist(rng)` from `std::uniform_int_distribution<int> dist(0, i - 1)`:
some value of the closed range `[0, i - 1]`, here the generator's next value
reduced modulo `i`; the generator advances. -/
def uniform_int_distribution (i : Nat) (rng : rng_state) : Nat × rng_state :=
  (rng.draws rng.used % i, { rng with used := rng.used + 1 })

/-- The exchange `std::swap(in.at(i), in.at(index))`; either `at` throws when its
index is not below the size. -/
def vector_swap_at (v : List Int) (i index : Nat) : Except exn (List Int) :=
  match v[i]?, v[index]? with
  | some a, some b => .ok ((v.set i b).set index a)
  | _, _ => .error .out_of_range

/-- The loop of `shuffle_indices` from the loop variable `i` on:
`for (int i = 2; i < static_cast<int>(in.size()); i++)`. -/
def shuffle_indices_loop : Nat → Nat → List Int → rng_state → Except exn (List Int × rng_state)
  | 0, _, _, _ => .error .out_of_fuel
  | fuel + 1, i, v, rng =>
    if (i : Int) < static_cast_int v.length then
      let draw := uniform_int_distribution i rng
      match vector_swap_at v i draw.1 with
      | .error e => .error e
      | .ok v1 => shuffle_indices_loop fuel (i + 1) v1 draw.2
    else .ok (v, rng)

/-- The static member function `app_impl::shuffle_indices`. -/
def shuffle_indices (v : List Int) (rng : rng_state) : Except exn (List Int × rng_state) :=
  shuffle_indices_loop (v.length + 1) 2 v rng

/-! ## Application state -/

/-- One item handed to `cv::imwrite` by `poll_export`, with the facts of the
block of statements that produced it. -/
structure export_record where
  /-- Whether the item comes from the block for the selected class. -/
  selected : Bool
  /-- The path built by the `std::ostringstream`. -/
  path : String
  /-- The frame index the video capture was positioned at. -/
  index : Int
  /-- Whether "Failed to seek" was logged. -/
  seek_failed : Bool
  /-- Whether "Failed to read" was logged. -/
  read_failed : Bool
  /-- The size passed to `cv::resize`. -/
  width : Int
  height : Int
  deriving DecidableEq, Repr

/-- The data members of `app_impl` that the selection and export code uses,
and the sequence of items written so far. -/
structure app_state where
  m_export_width : Int
  m_export_height : Int
  m_export_unselected : Bool
  m_num_frames : Int
  m_frame_indices : List Int
  m_unselected_indices : List Int
  m_export_queued : Bool
  m_in_export_state : Bool
  m_current_export_frame : Int
  written : List export_record
  deriving DecidableEq, Repr

/-- The state of a freshly constructed `app_impl` (the member initialisers). -/
def initial_state : app_state :=
  { m_export_width := 224, m_export_height := 224, m_export_unselected := true,
    m_num_frames := 0, m_frame_indices := [], m_unselected_indices := [],
    m_export_queued := false, m_in_export_state := false, m_current_export_frame := 0,
    written := [] }

/-- The first loop of `start_export` from the loop variable `i` on:
`for (int i = 0; i < m_num_frames; i++)`, collecting the indices that
`m_frame_indices.find` does not find. -/
def null_indices_loop (m_num_frames : Int) (m_frame_indices : List Int) :
    Nat → Int → List Int → Except exn (List Int)
  | 0, _, _ => .error .out_of_fuel
  | fuel + 1, i, null_indices =>
    if i < m_num_frames then
      if set_find m_frame_indices i then
        null_indices_loop m_num_frames m_frame_indices fuel (i + 1) null_indices
      else
        null_indices_loop m_num_frames m_frame_indices fuel (i + 1) (null_indices ++ [i])
    else .ok null_indices

/-- The loop `for (int i = 0; i < 4; i++) shuffle_indices(null_indices, rng)`. -/
def shuffle_passes : Nat → List Int → rng_state → Except exn (List Int × rng_state)
  | 0, v, rng => .ok (v, rng)
  | n + 1, v, rng =>
    match shuffle_indices v rng with
    | .error e => .error e
    | .ok r => shuffle_passes n r.1 r.2

/-- The member function `app_impl::start_export`. The argument `rng` is the
local generator `std::mt19937 rng(0)`. -/
def start_export (rng : rng_state) (s : app_state) : Except exn app_state :=
  let s1 := { s with m_in_export_state := true, m_current_export_frame := 0 }
  match null_indices_loop s1.m_num_frames s1.m_frame_indices (s1.m_num_frames.toNat + 1) 0 [] with
  | .error e => .error e
  | .ok null_indices =>
    match shuffle_passes 4 null_indices rng with
    | .error e => .error e
    | .ok shuffled =>
      let min_size := min s1.m_frame_indices.length (static_cast_size_t s1.m_num_frames)
      .ok { s1 with m_unselected_indices := vector_resize shuffled.1 min_size }

/-- The member function `app_impl::process_export`. -/
def process_export (rng : rng_state) (s : app_state) : Except exn app_state :=
  if s.m_export_queued then
    match start_export rng s with
    | .error e => .error e
    | .ok s1 => .ok { s1 with m_export_queued := false }
  else .ok s

/-! ## Output naming -/

/-- The character of a decimal digit. -/
def digit_char (d : Nat) : Char :=
  Char.ofNat (48 + d)

/-- Decimal digits of a natural number, most significant first. -/
def decimal_digits : Nat → Nat → List Char
  | 0, _ => []
  | fuel + 1, n =>
    if n < 10 then [digit_char n]
    else decimal_digits fuel (n / 10) ++ [digit_char (n % 10)]

/-- The characters `operator<<` produces for an `int` in the default (decimal)
format; an `int` has at most ten digits. -/
def format_int (i : Int) : List Char :=
  if i < 0 then '-' :: decimal_digits 10 (-i).toNat else decimal_digits 10 i.toNat

/-- The effect of `std::setfill(fill) << std::setw(w)` on the next item: fill
characters are put in front until the width is reached. -/
def setfill_setw (fill : Char) (w : Nat) (item : List Char) : List Char :=
  List.replicate (w - item.length) fill ++ item

/-- The path `cls << std::setfill('0') << std::setw(8) << cursor << ".png"`. -/
def export_path (cls : String) (cursor : Int) : String :=
  cls ++ String.mk (setfill_setw '0' 8 (format_int cursor)) ++ ".png"

/-! ## Export scheduler -/

/-- What the outside world does during one call of `poll_export`. The result of
`cv::imwrite` is not part of it: the code discards that result. -/
structure tick_env where
  /-- The `k`-th reading of `clock_type::now()` in the call, in nanoseconds. -/
  now : Nat → Int
  /-- Result of `m_video_capture.set` in iteration `j` of the loop: slot `0` for
  the selected item, slots `1` and `2` for the two calls of the unselected item. -/
  seek_ok : Nat → Nat → Bool
  /-- Result of `m_video_capture.read` in iteration `j`: slot `0` for the
  selected item, slot `1` for the unselected item. -/
  read_ok : Nat → Nat → Bool

/-- The duration `duration_cast<milliseconds>(t1 - t0)`. -/
def elapsed_ms (t0 t1 : Int) : Int :=
  Int.tdiv (t1 - t0) 1000000

/-- The block "export selected sample" of `poll_export` in iteration `j`. -/
def export_selected (env : tick_env) (j : Nat) (s : app_state) : Except exn app_state :=
  let path := export_path "1_" s.m_current_export_frame
  match set_next_begin s.m_frame_indices s.m_current_export_frame with
  | .error e => .error e
  | .ok index =>
    .ok { s with written := s.written ++
      [{ selected := true, path := path, index := index,
         seek_failed := !env.seek_ok j 0, read_failed := !env.read_ok j 0,
         width := s.m_export_width, height := s.m_export_height }] }

/-- The block guarded by `if (m_export_unselected)` of `poll_export` in iteration `j`. -/
def export_unselected (env : tick_env) (j : Nat) (s : app_state) : Except exn app_state :=
  if s.m_export_unselected then
    let path := export_path "0_" s.m_current_export_frame
    match vector_at s.m_unselected_indices s.m_current_export_frame with
    | .error e => .error e
    | .ok index =>
      .ok { s with written := s.written ++
        [{ selected := false, path := path, index := index,
           seek_failed := !env.seek_ok j 2, read_failed := !env.read_ok j 1,
           width := s.m_export_width, height := s.m_export_height }] }
  else .ok s

/-- The `while` loop of `poll_export` from its `j`-th iteration on; `t0` is the
clock reading taken before the loop. -/
def poll_export_loop (env : tick_env) (t0 : Int) : Nat → Nat → app_state → Except exn app_state
  | 0, _, _ => .error .out_of_fuel
  | fuel + 1, j, s =>
    if s.m_current_export_frame < static_cast_int s.m_frame_indices.length then
      match export_selected env j s with
      | .error e => .error e
      | .ok s1 =>
        match export_unselected env j s1 with
        | .error e => .error e
        | .ok s2 =>
          let s3 := { s2 with m_current_export_frame := s2.m_current_export_frame + 1 }
          let t1 := env.now (j + 1)
          if elapsed_ms t0 t1 > 50 then .ok s3
          else poll_export_loop env t0 fuel (j + 1) s3
    else .ok s

/-- The member function `app_impl::poll_export`: the new state and the value returned. -/
def poll_export (env : tick_env) (s : app_state) : Except exn (app_state × Bool) :=
  if s.m_current_export_frame ≥ static_cast_int s.m_frame_indices.length then
    .ok ({ s with m_in_export_state := false }, false)
  else
    let t0 := env.now 0
    let fuel := (static_cast_int s.m_frame_indices.length - s.m_current_export_frame).toNat + 1
    match poll_export_loop env t0 fuel 0 s with
    | .error e => .error e
    | .ok s1 => .ok (s1, true)

/-- Repeated calls of `poll_export`, one for each element of `envs`. -/
def poll_export_calls : List tick_env → app_state → Except exn app_state
  | [], s => .ok s
  | env :: envs, s =>
    match poll_export env s with
    | .error e => .error e
    | .ok r => poll_export_calls envs r.1

/-- A run of the export: `start_export`, then one call of `poll_export` for each
element of `envs`. -/
def export_run (rng : rng_state) (envs : List tick_env) (s : app_state) : Except exn app_state :=
  match start_export rng s with
  | .error e => .error e
  | .ok s1 => poll_export_calls envs s1

/-! ## Notions used in the statements -/

/-- Specification side of the naming convention: the eight decimal digits of `n`,
most significant first (leading digits are `0` for a small `n`). -/
def eight_digits (n : Nat) : List Char :=
  [digit_char (n / 10000000 % 10), digit_char (n / 1000000 % 10),
   digit_char (n / 100000 % 10), digit_char (n / 10000 % 10),
   digit_char (n / 1000 % 10), digit_char (n / 100 % 10),
   digit_char (n / 10 % 10), digit_char (n % 10)]

/-- Specification side of the negative sampler: the candidate pool, all frame
indices of `[0, m_num_frames)` that are not in the selection store, ascending. -/
def candidate_pool (m_num_frames : Int) (m_frame_indices : List Int) : List Int :=
  ((List.range m_num_frames.toNat).map (fun k : Nat => (k : Int))).filter
    (fun x => !set_find m_frame_indices x)

/-- The frame indices of the items of the selected class among `w`, in the
order in which they were written. -/
def selected_indices (w : List export_record) : List Int :=
  (w.filter (fun r => r.selected)).map (fun r => r.index)

/-- The selection store of `s` is a `std::set<int>` (strictly ascending) whose
indices all lie in `[0, m_num_frames)`, and `m_num_frames` is a value of `int`. -/
def store_in_range (s : app_state) : Prop :=
  s.m_frame_indices.Sorted (· < ·) ∧
  (∀ x ∈ s.m_frame_indices, 0 ≤ x ∧ x < s.m_num_frames) ∧
  0 ≤ s.m_num_frames ∧ s.m_num_frames ≤ INT_MAX

instance (s : app_state) : Decidable (store_in_range s) := by
  unfold store_in_range
  infer_instance

/-- The state `s1` differs from `s` at most in the export progress
(`m_in_export_state`, `m_current_export_frame`) and in the items written. -/
def same_configuration (s s1 : app_state) : Prop :=
  s1.m_frame_indices = s.m_frame_indices ∧
  s1.m_unselected_indices = s.m_unselected_indices ∧
  s1.m_num_frames = s.m_num_frames ∧
  s1.m_export_unselected = s.m_export_unselected ∧
  s1.m_export_width = s.m_export_width ∧
  s1.m_export_height = s.m_export_height ∧
  s1.m_export_queued = s.m_export_queued

instance (s s1 : app_state) : Decidable (same_configuration s s1) := by
  unfold same_configuration
  infer_instance

/-- What holds of the state throughout a run of the export: the size of the
store is a value of `int`, the cursor lies between `0` and that size, and when
unselected frames are exported there is an unselected index for every cursor. -/
def export_invariant (s : app_state) : Prop :=
  s.m_frame_indices.length < 2147483648 ∧
  0 ≤ s.m_current_export_frame ∧
  s.m_current_export_frame ≤ s.m_frame_indices.length ∧
  (s.m_export_unselected = true → s.m_frame_indices.length ≤ s.m_unselected_indices.length)

instance (s : app_state) : Decidable (export_invariant s) := by
  unfold export_invariant
  infer_instance

/-! ## Lemmas on the containers -/

theorem mem_set_emplace (m : List Int) (x y : Int) :
    y ∈ set_emplace m x ↔ y = x ∨ y ∈ m := by
  induction m with
  | nil => simp [set_emplace]
  | cons a as ih =>
    unfold set_emplace
    split_ifs with h1 h2
    · simp
    · subst h2; simp
    · simp only [List.mem_cons, ih]; tauto

theorem set_emplace_sorted (m : List Int) (x : Int) (hm : m.Sorted (· < ·)) :
    (set_emplace m x).Sorted (· < ·) := by
  induction m with
  | nil => simp [set_emplace]
  | cons a as ih =>
    unfold set_emplace
    rw [List.sorted_cons] at hm
    split_ifs with h1 h2
    · rw [List.sorted_cons, List.sorted_cons]
      refine ⟨?_, hm⟩
      intro b hb
      rcases List.mem_cons.1 hb with h | h
      · rw [h]; exact h1
      · exact lt_trans h1 (hm.1 b h)
    · rw [List.sorted_cons]; exact hm
    · rw [List.sorted_cons]
      refine ⟨?_, ih hm.2⟩
      intro b hb
      rcases (mem_set_emplace as x b).1 hb with h | h
      · rw [h]; omega
      · exact hm.1 b h

theorem set_emplace_of_mem (m : List Int) (x : Int) (hm : m.Sorted (· < ·)) (hx : x ∈ m) :
    set_emplace m x = m := by
  induction m with
  | nil => simp at hx
  | cons a as ih =>
    unfold set_emplace
    rw [List.sorted_cons] at hm
    rcases List.mem_cons.1 hx with h | h
    · simp [h]
    · have := hm.1 x h
      rw [if_neg (by omega), if_neg (by omega), ih hm.2 h]

/-! ## Lemmas on `insert_selection` -/

theorem insert_selection_loop_spec (e : Int) (he : e < INT_MAX) :
    ∀ (fuel : Nat) (i : Int) (m : List Int), (e + 1 - i).toNat < fuel →
      ∃ r, insert_selection_loop e fuel i m = .ok r ∧
        (∀ y, y ∈ r ↔ y ∈ m ∨ (i ≤ y ∧ y ≤ e)) ∧
        (m.Sorted (· < ·) → r.Sorted (· < ·)) ∧
        (m.Sorted (· < ·) → (∀ y, i ≤ y → y ≤ e → y ∈ m) → r = m) := by
  intro fuel
  induction fuel with
  | zero => intro i m h; omega
  | succ fuel ih =>
    intro i m h
    unfold insert_selection_loop
    by_cases hi : i ≤ e
    · have hne : i ≠ INT_MAX := by omega
      rw [if_pos hi, if_neg hne]
      obtain ⟨r, hr, hmem, hsort, hsame⟩ := ih (i + 1) (set_emplace m i) (by omega)
      refine ⟨r, hr, ?_, ?_, ?_⟩
      · intro y
        rw [hmem y, mem_set_emplace]
        constructor
        · rintro ((h1 | h1) | h1)
          · right; omega
          · left; exact h1
          · right; omega
        · rintro (h1 | h1)
          · left; right; exact h1
          · by_cases hy : y = i
            · left; left; exact hy
            · right; omega
      · intro hm
        exact hsort (set_emplace_sorted m i hm)
      · intro hm hall
        have hmi : set_emplace m i = m := set_emplace_of_mem m i hm (hall i le_rfl hi)
        rw [hmi] at hsame
        exact hsame hm (fun y h1 h2 => hall y (by omega) h2)
    · rw [if_neg hi]
      refine ⟨m, rfl, ?_, fun hm => hm, fun _ _ => rfl⟩
      intro y
      constructor
      · intro h1; left; exact h1
      · rintro (h1 | h1)
        · exact h1
        · omega

/-- C3. On a selection store `S` (a `std::set<int>`, strictly ascending) and a
selection whose `end_offset` is below `INT_MAX`, `insert_selection` returns, and
the store it leaves is `S` united with the inclusive span
`[offset, end_offset]`: an index is in it exactly when it was in `S` or lies in
the span. Hence the store is unchanged when `offset > end_offset`, and inserting
the same selection once more leaves the store unchanged. -/
theorem insert_selection_union (S : List Int) (s : selection)
    (hS : S.Sorted (· < ·)) (he : s.end_offset < INT_MAX) :
    ∃ r, insert_selection s S = .ok r ∧ r.Sorted (· < ·) ∧
      (∀ y, y ∈ r ↔ y ∈ S ∨ (s.offset ≤ y ∧ y ≤ s.end_offset)) ∧
      (s.end_offset < s.offset → r = S) ∧
      insert_selection s r = .ok r := by
  obtain ⟨r, hr, hmem, hsort, hsame⟩ :=
    insert_selection_loop_spec s.end_offset he ((s.end_offset - s.offset).toNat + 2) s.offset S
      (by omega)
  obtain ⟨r2, hr2, _, _, hsame2⟩ :=
    insert_selection_loop_spec s.end_offset he ((s.end_offset - s.offset).toNat + 2) s.offset r
      (by omega)
  refine ⟨r, hr, hsort hS, hmem, ?_, ?_⟩
  · intro hlt
    exact hsame hS (fun y h1 h2 => by omega)
  · have : r2 = r := hsame2 (hsort hS) (fun y h1 h2 => (hmem y).2 (Or.inr ⟨h1, h2⟩))
    unfold insert_selection
    rw [hr2, this]

theorem insert_selection_union_witness :
    List.Sorted (· < ·) [(3 : Int), 9] ∧ (4 : Int) < INT_MAX ∧
    ∃ r, insert_selection ⟨2, 4⟩ [3, 9] = .ok r ∧ r.Sorted (· < ·) ∧
      (∀ y, y ∈ r ↔ y ∈ [3, 9] ∨ ((2 : Int) ≤ y ∧ y ≤ 4)) ∧
      ((4 : Int) < 2 → r = [3, 9]) ∧
      insert_selection ⟨2, 4⟩ r = .ok r :=
  ⟨by decide, by decide, insert_selection_union [3, 9] ⟨2, 4⟩ (by decide) (by decide)⟩
/-! ## Lemmas on the output naming -/

theorem decimal_digits_small (fuel n : Nat) (h : n < 10) :
    decimal_digits (fuel + 1) n = [digit_char n] := by
  rw [decimal_digits, if_pos h]

theorem decimal_digits_large (fuel n : Nat) (h : 10 ≤ n) :
    decimal_digits (fuel + 1) n = decimal_digits fuel (n / 10) ++ [digit_char (n % 10)] := by
  rw [decimal_digits, if_neg (by omega)]

theorem setfill_setw_decimal_digits (n : Nat) (h : n < 100000000) :
    setfill_setw (digit_char 0) 8 (decimal_digits 10 n) = eight_digits n := by
  have e1 : n / 10 / 10 = n / 100 := by omega
  have e2 : n / 100 / 10 = n / 1000 := by omega
  have e3 : n / 1000 / 10 = n / 10000 := by omega
  have e4 : n / 10000 / 10 = n / 100000 := by omega
  have e5 : n / 100000 / 10 = n / 1000000 := by omega
  have e6 : n / 1000000 / 10 = n / 10000000 := by omega
  have hcases : n < 10 ∨ (10 ≤ n ∧ n < 100) ∨ (100 ≤ n ∧ n < 1000) ∨ (1000 ≤ n ∧ n < 10000) ∨
      (10000 ≤ n ∧ n < 100000) ∨ (100000 ≤ n ∧ n < 1000000) ∨
      (1000000 ≤ n ∧ n < 10000000) ∨ (10000000 ≤ n ∧ n < 100000000) := by omega
  unfold eight_digits setfill_setw
  rcases hcases with h1 | h1 | h1 | h1 | h1 | h1 | h1 | h1
  all_goals
    simp (disch := omega) only [decimal_digits_small, decimal_digits_large, e1, e2, e3, e4, e5, e6]
    simp only [List.length_cons, List.length_nil, List.length_append, List.replicate,
      List.cons_append, List.nil_append, List.append_assoc, Nat.reduceAdd, Nat.reduceSub]
    try rw [show n / 10000000 % 10 = 0 from by omega]
    try rw [show n / 1000000 % 10 = 0 from by omega]
    try rw [show n / 100000 % 10 = 0 from by omega]
    try rw [show n / 10000 % 10 = 0 from by omega]
    try rw [show n / 1000 % 10 = 0 from by omega]
    try rw [show n / 100 % 10 = 0 from by omega]
    try rw [show n / 10 % 10 = 0 from by omega]
    try rw [show n / 10000000 % 10 = n / 10000000 from by omega]
    try rw [show n / 1000000 % 10 = n / 1000000 from by omega]
    try rw [show n / 100000 % 10 = n / 100000 from by omega]
    try rw [show n / 10000 % 10 = n / 10000 from by omega]
    try rw [show n / 1000 % 10 = n / 1000 from by omega]
    try rw [show n / 100 % 10 = n / 100 from by omega]
    try rw [show n / 10 % 10 = n / 10 from by omega]
    try rw [show n % 10 = n from by omega]

theorem export_path_eq (cls : String) (c : Int) (h0 : 0 ≤ c) (h1 : c < 100000000) :
    export_path cls c = cls ++ String.mk (eight_digits c.toNat) ++ ".png" := by
  have h := setfill_setw_decimal_digits c.toNat (by omega)
  unfold export_path format_int
  rw [if_neg (by omega)]
  exact congrArg (fun d => cls ++ String.mk d ++ ".png") h

/-- C5. For an export cursor `c` with `0 ≤ c < 10^8`, the path that the block for
the selected class of `poll_export` gives to the item it writes is `"1_"`, then
the eight decimal digits of `c` (zero-padded on the left), then `".png"`; the
block for the unselected class builds the same with `"0_"` in front. -/
theorem export_path_zero_padded (c : Int) (h0 : 0 ≤ c) (h1 : c < 100000000) :
    (∀ (env : tick_env) (j : Nat) (s s1 : app_state), s.m_current_export_frame = c →
      export_selected env j s = .ok s1 →
      ∃ r, s1.written = s.written ++ [r] ∧ r.selected = true ∧
        r.path = "1_" ++ String.mk (eight_digits c.toNat) ++ ".png") ∧
    (∀ (env : tick_env) (j : Nat) (s s1 : app_state), s.m_current_export_frame = c →
      s.m_export_unselected = true → export_unselected env j s = .ok s1 →
      ∃ r, s1.written = s.written ++ [r] ∧ r.selected = false ∧
        r.path = "0_" ++ String.mk (eight_digits c.toNat) ++ ".png") := by
  constructor
  · intro env j s s1 hc h
    unfold export_selected at h
    split at h
    · cases h
    · cases h
      exact ⟨_, rfl, rfl, by rw [hc]; exact export_path_eq "1_" c h0 h1⟩
  · intro env j s s1 hc hu h
    unfold export_unselected at h
    rw [if_pos hu] at h
    split at h
    · cases h
    · cases h
      exact ⟨_, rfl, rfl, by rw [hc]; exact export_path_eq "0_" c h0 h1⟩

theorem export_path_zero_padded_witness :
    ((0 : Int) ≤ 5 ∧ (5 : Int) < 100000000) ∧
    export_path "1_" 5 = "1_00000005.png" ∧ export_path "0_" 0 = "0_00000000.png" ∧
    ("1_" ++ String.mk (eight_digits (5 : Int).toNat) ++ ".png" = "1_00000005.png") ∧
    ((∀ (env : tick_env) (j : Nat) (s s1 : app_state), s.m_current_export_frame = 5 →
      export_selected env j s = .ok s1 →
      ∃ r, s1.written = s.written ++ [r] ∧ r.selected = true ∧
        r.path = "1_" ++ String.mk (eight_digits (5 : Int).toNat) ++ ".png") ∧
    (∀ (env : tick_env) (j : Nat) (s s1 : app_state), s.m_current_export_frame = 5 →
      s.m_export_unselected = true → export_unselected env j s = .ok s1 →
      ∃ r, s1.written = s.written ++ [r] ∧ r.selected = false ∧
        r.path = "0_" ++ String.mk (eight_digits (5 : Int).toNat) ++ ".png")) :=
  ⟨by decide, by decide, by decide, by decide,
    export_path_zero_padded 5 (by decide) (by decide)⟩

/-! ## Lemmas on the negative sampler -/

theorem static_cast_int_le (n : Nat) : static_cast_int n ≤ n := by
  unfold static_cast_int
  split_ifs <;> omega

theorem static_cast_int_eq (n : Nat) (h : n < 2147483648) : static_cast_int n = n := by
  unfold static_cast_int
  split_ifs <;> omega

theorem static_cast_size_t_eq (i : Int) (h : 0 ≤ i) (h1 : i ≤ INT_MAX) :
    static_cast_size_t i = i.toNat := by
  unfold static_cast_size_t
  have h2 : i < 18446744073709551616 := by
    have : INT_MAX = 2147483647 := rfl
    omega
  rw [Int.emod_eq_of_lt h h2]

theorem cons_set_perm (x b : Int) :
    ∀ (xs : List Int) (j : Nat), xs[j]? = some b → (b :: xs.set j x).Perm (x :: xs) := by
  intro xs
  induction xs with
  | nil => intro j h; simp at h
  | cons y ys ih =>
    intro j h
    cases j with
    | zero =>
      simp at h
      subst h
      simpa using List.Perm.swap x y ys
    | succ j =>
      simp at h
      have h1 := ih j h
      simp only [List.set_cons_succ]
      exact ((List.Perm.swap y b _).trans (h1.cons y)).trans (List.Perm.swap x y ys)

theorem set_set_perm :
    ∀ (v : List Int) (i j : Nat) (a b : Int), v[i]? = some a → v[j]? = some b →
      ((v.set i b).set j a).Perm v := by
  intro v
  induction v with
  | nil => intro i j a b h; simp at h
  | cons x xs ih =>
    intro i j a b hi hj
    cases i with
    | zero =>
      simp at hi
      subst hi
      cases j with
      | zero =>
        simp at hj
        subst hj
        simp
      | succ j =>
        simp at hj
        simpa using cons_set_perm x b xs j hj
    | succ i =>
      simp at hi
      cases j with
      | zero =>
        simp at hj
        subst hj
        simpa using cons_set_perm x a xs i hi
      | succ j =>
        simp at hj
        simpa using ih i j a b hi hj

theorem vector_swap_at_perm (v : List Int) (i index : Nat) (hi : i < v.length)
    (hx : index < v.length) :
    ∃ v1, vector_swap_at v i index = .ok v1 ∧ v1.Perm v := by
  unfold vector_swap_at
  have h1 : v[i]? = some v[i] := List.getElem?_eq_getElem hi
  have h2 : v[index]? = some v[index] := List.getElem?_eq_getElem hx
  rw [h1, h2]
  exact ⟨_, rfl, set_set_perm v i index _ _ h1 h2⟩

theorem shuffle_indices_loop_perm :
    ∀ (fuel i : Nat) (v : List Int) (rng : rng_state), 0 < i → 0 < fuel →
      v.length + 1 ≤ fuel + i →
      ∃ v1 rng1, shuffle_indices_loop fuel i v rng = .ok (v1, rng1) ∧ v1.Perm v := by
  intro fuel
  induction fuel with
  | zero =>
    intro i v rng hi h0 hf
    omega
  | succ fuel ih =>
    intro i v rng hi _ hf
    unfold shuffle_indices_loop
    by_cases hlt : (i : Int) < static_cast_int v.length
    · rw [if_pos hlt]
      have hle := static_cast_int_le v.length
      have hiv : i < v.length := by omega
      have hx : rng.draws rng.used % i < v.length := lt_trans (Nat.mod_lt _ hi) hiv
      obtain ⟨v1, hv1, hp1⟩ := vector_swap_at_perm v i _ hiv hx
      simp only [uniform_int_distribution]
      rw [hv1]
      obtain ⟨v2, rng2, hv2, hp2⟩ := ih (i + 1) v1 { rng with used := rng.used + 1 }
        (by omega) (by omega) (by rw [hp1.length_eq]; omega)
      exact ⟨v2, rng2, hv2, hp2.trans hp1⟩
    · rw [if_neg hlt]
      exact ⟨v, rng, rfl, List.Perm.refl v⟩

theorem shuffle_indices_perm (v : List Int) (rng : rng_state) :
    ∃ v1 rng1, shuffle_indices v rng = .ok (v1, rng1) ∧ v1.Perm v :=
  shuffle_indices_loop_perm (v.length + 1) 2 v rng (by omega) (by omega) (by omega)

theorem shuffle_passes_perm :
    ∀ (n : Nat) (v : List Int) (rng : rng_state),
      ∃ v1 rng1, shuffle_passes n v rng = .ok (v1, rng1) ∧ v1.Perm v := by
  intro n
  induction n with
  | zero => intro v rng; exact ⟨v, rng, rfl, List.Perm.refl v⟩
  | succ n ih =>
    intro v rng
    obtain ⟨v1, rng1, h1, p1⟩ := shuffle_indices_perm v rng
    obtain ⟨v2, rng2, h2, p2⟩ := ih v1 rng1
    refine ⟨v2, rng2, ?_, p2.trans p1⟩
    simp only [shuffle_passes, h1, h2]

theorem null_indices_loop_spec (nf : Int) (S : List Int) :
    ∀ (fuel : Nat) (i : Int) (acc : List Int), (nf - i).toNat < fuel →
      null_indices_loop nf S fuel i acc = .ok (acc ++
        ((List.range (nf - i).toNat).map (fun k : Nat => i + (k : Int))).filter
          (fun x => !set_find S x)) := by
  intro fuel
  induction fuel with
  | zero => intro i acc h; omega
  | succ fuel ih =>
    intro i acc h
    unfold null_indices_loop
    by_cases hi : i < nf
    · rw [if_pos hi]
      obtain ⟨m, hm⟩ : ∃ m, (nf - i).toNat = m + 1 := ⟨(nf - i).toNat - 1, by omega⟩
      have hm1 : (nf - (i + 1)).toNat = m := by omega
      have hmap : (List.range (m + 1)).map (fun k : Nat => i + (k : Int)) =
          i :: (List.range m).map (fun k : Nat => i + 1 + (k : Int)) := by
        rw [List.range_succ_eq_map, List.map_cons, List.map_map]
        simp only [Nat.cast_zero, add_zero, List.cons.injEq, true_and]
        apply List.map_congr_left
        intro k _
        simp only [Function.comp_apply, Nat.cast_succ]
        omega
      rw [hm, hmap]
      by_cases hf : set_find S i = true
      · rw [if_pos hf, ih (i + 1) acc (by omega), hm1]
        simp [List.filter_cons, hf]
      · rw [if_neg hf, ih (i + 1) (acc ++ [i]) (by omega), hm1]
        simp [List.filter_cons, hf]
    · rw [if_neg hi]
      have h0 : (nf - i).toNat = 0 := by omega
      simp [h0]

theorem set_find_iff (S : List Int) (x : Int) : set_find S x = true ↔ x ∈ S := by
  unfold set_find
  exact List.elem_iff

theorem mem_candidate_pool (nf : Int) (S : List Int) (x : Int) :
    x ∈ candidate_pool nf S ↔ (0 ≤ x ∧ x < nf) ∧ x ∉ S := by
  unfold candidate_pool
  simp only [List.mem_filter, List.mem_map, List.mem_range, Bool.not_eq_true',
    ← Bool.not_eq_true, set_find_iff]
  constructor
  · rintro ⟨⟨a, ha, rfl⟩, hx⟩
    exact ⟨⟨by omega, by omega⟩, hx⟩
  · rintro ⟨⟨h0, h1⟩, hx⟩
    exact ⟨⟨x.toNat, by omega, by omega⟩, hx⟩

theorem candidate_pool_sorted (nf : Int) (S : List Int) :
    (candidate_pool nf S).Sorted (· < ·) := by
  unfold candidate_pool
  apply List.Sorted.filter
  apply List.Pairwise.map (R := (· < ·)) _ _ (List.pairwise_lt_range _)
  intro a b h
  exact Int.ofNat_lt.2 h

theorem candidate_pool_nodup (nf : Int) (S : List Int) : (candidate_pool nf S).Nodup :=
  (candidate_pool_sorted nf S).nodup

theorem candidate_pool_length (nf : Int) (S : List Int) (hS : S.Sorted (· < ·))
    (hin : ∀ x ∈ S, 0 ≤ x ∧ x < nf) :
    (candidate_pool nf S).length + S.length = nf.toNat := by
  have hperm : (((List.range nf.toNat).map (fun k : Nat => (k : Int))).filter
      (fun x => set_find S x)).Perm S := by
    rw [List.perm_ext_iff_of_nodup]
    · intro x
      simp only [List.mem_filter, List.mem_map, List.mem_range, set_find_iff]
      constructor
      · rintro ⟨_, hx⟩; exact hx
      · intro hx
        have := hin x hx
        exact ⟨⟨x.toNat, by omega, by omega⟩, hx⟩
    · apply List.Nodup.filter
      apply List.Nodup.map _ (List.nodup_range _)
      intro a b h
      exact Int.ofNat.inj h
    · exact hS.nodup
  have hlen := List.length_eq_length_filter_add (l := (List.range nf.toNat).map (fun k : Nat => (k : Int)))
    (fun x => set_find S x)
  rw [hperm.length_eq, List.length_map, List.length_range] at hlen
  unfold candidate_pool
  omega


theorem vector_resize_length (v : List Int) (n : Nat) : (vector_resize v n).length = n := by
  unfold vector_resize
  simp only [List.length_append, List.length_take, List.length_replicate]
  omega

theorem vector_resize_of_le (v : List Int) (n : Nat) (h : n ≤ v.length) :
    vector_resize v n = v.take n := by
  unfold vector_resize
  rw [Nat.sub_eq_zero_of_le h]
  simp

theorem start_export_spec (rng : rng_state) (s : app_state) :
    ∃ shuffled, shuffled.Perm (candidate_pool s.m_num_frames s.m_frame_indices) ∧
      start_export rng s = .ok
        { s with
          m_in_export_state := true
          m_current_export_frame := 0
          m_unselected_indices := vector_resize shuffled
            (min s.m_frame_indices.length (static_cast_size_t s.m_num_frames)) } := by
  have hnull : null_indices_loop s.m_num_frames s.m_frame_indices (s.m_num_frames.toNat + 1) 0 [] =
      .ok (candidate_pool s.m_num_frames s.m_frame_indices) := by
    rw [null_indices_loop_spec _ _ _ _ _ (by omega)]
    simp [candidate_pool]
  obtain ⟨v, rng1, hv, hp⟩ :=
    shuffle_passes_perm 4 (candidate_pool s.m_num_frames s.m_frame_indices) rng
  refine ⟨v, hp, ?_⟩
  unfold start_export
  simp only [hnull, hv]



theorem store_in_range_length (s : app_state) (hs : store_in_range s) :
    (candidate_pool s.m_num_frames s.m_frame_indices).length =
        s.m_num_frames.toNat - s.m_frame_indices.length ∧
      s.m_frame_indices.length ≤ s.m_num_frames.toNat ∧
      s.m_frame_indices.length < 2147483648 := by
  obtain ⟨h1, h2, h3, h4⟩ := hs
  have h := candidate_pool_length s.m_num_frames s.m_frame_indices h1 h2
  have h5 : INT_MAX = 2147483647 := rfl
  omega

theorem min_size_eq (s : app_state) (hs : store_in_range s) :
    min s.m_frame_indices.length (static_cast_size_t s.m_num_frames) =
      s.m_frame_indices.length := by
  have h := (store_in_range_length s hs).2.1
  rw [static_cast_size_t_eq _ hs.2.2.1 hs.2.2.2]
  exact Nat.min_eq_left h

/-- C10. For a selection store `S` inside `[0, m_num_frames)` that is not larger
than its complement, and for every behaviour of the generator: a pass of
`shuffle_indices` returns without `at` throwing and yields a permutation of its
input, and `start_export` leaves a negative set `m_unselected_indices` that is the
first `|S|` entries of a permutation of the candidate pool; it has exactly `|S|`
entries, pairwise distinct, each an index of `[0, m_num_frames)` that is not in `S`. -/
theorem start_export_balanced_negative_set (rng : rng_state) (s : app_state)
    (hs : store_in_range s)
    (hbal : (s.m_frame_indices.length : Int) ≤ s.m_num_frames - s.m_frame_indices.length) :
    (∀ (v : List Int) (g : rng_state),
      ∃ v1 g1, shuffle_indices v g = .ok (v1, g1) ∧ v1.Perm v) ∧
    ∃ (s1 : app_state) (shuffled : List Int), start_export rng s = .ok s1 ∧
      s1.m_frame_indices = s.m_frame_indices ∧
      shuffled.Perm (candidate_pool s.m_num_frames s.m_frame_indices) ∧
      s1.m_unselected_indices = shuffled.take s.m_frame_indices.length ∧
      s1.m_unselected_indices.length = s.m_frame_indices.length ∧
      s1.m_unselected_indices.Nodup ∧
      ∀ x ∈ s1.m_unselected_indices, (0 ≤ x ∧ x < s.m_num_frames) ∧ x ∉ s.m_frame_indices := by
  refine ⟨shuffle_indices_perm, ?_⟩
  obtain ⟨shuffled, hp, hstart⟩ := start_export_spec rng s
  obtain ⟨hlen, hle, _⟩ := store_in_range_length s hs
  have hshort : s.m_frame_indices.length ≤ shuffled.length := by
    rw [hp.length_eq, hlen]
    omega
  rw [min_size_eq s hs, vector_resize_of_le _ _ hshort] at hstart
  refine ⟨_, shuffled, hstart, rfl, hp, rfl, ?_, ?_, ?_⟩
  · simp only [List.length_take]
    exact Nat.min_eq_left hshort
  · exact ((hp.nodup_iff).2 (candidate_pool_nodup _ _)).sublist (List.take_sublist _ _)
  · intro x hx
    have hx1 : x ∈ shuffled := List.mem_of_mem_take hx
    exact (mem_candidate_pool _ _ x).1 (hp.mem_iff.1 hx1)

theorem start_export_balanced_negative_set_witness :
    store_in_range { initial_state with m_num_frames := 10, m_frame_indices := [2, 3, 4] } ∧
    (([2, 3, 4] : List Int).length : Int) ≤ 10 - ([2, 3, 4] : List Int).length ∧
    ((∀ (v : List Int) (g : rng_state),
      ∃ v1 g1, shuffle_indices v g = .ok (v1, g1) ∧ v1.Perm v) ∧
    ∃ (s1 : app_state) (shuffled : List Int),
      start_export ⟨fun k => 7 * k + 3, 0⟩
        { initial_state with m_num_frames := 10, m_frame_indices := [2, 3, 4] } = .ok s1 ∧
      s1.m_frame_indices = [2, 3, 4] ∧
      shuffled.Perm (candidate_pool 10 [2, 3, 4]) ∧
      s1.m_unselected_indices = shuffled.take 3 ∧
      s1.m_unselected_indices.length = 3 ∧
      s1.m_unselected_indices.Nodup ∧
      ∀ x ∈ s1.m_unselected_indices, (0 ≤ x ∧ x < 10) ∧ x ∉ ([2, 3, 4] : List Int)) :=
  ⟨by decide, by decide,
    start_export_balanced_negative_set ⟨fun k => 7 * k + 3, 0⟩
      { initial_state with m_num_frames := 10, m_frame_indices := [2, 3, 4] }
      (by decide) (by decide)⟩

/-- C1, at the failing input. With one frame and that frame selected, the negative
set that `start_export` computes is `[0]`: its entry is the selected frame `0`, so
the negative set and the selection store are not disjoint. -/
theorem start_export_negative_set_not_disjoint :
    store_in_range { initial_state with m_num_frames := 1, m_frame_indices := [0] } ∧
    ∀ rng : rng_state, ∃ s1,
      start_export rng { initial_state with m_num_frames := 1, m_frame_indices := [0] } = .ok s1 ∧
      s1.m_unselected_indices = [0] ∧ s1.m_frame_indices = [0] ∧
      ¬ (∀ x ∈ s1.m_unselected_indices, x ∉ s1.m_frame_indices) := by
  refine ⟨by decide, fun rng => ⟨_, rfl, rfl, rfl, ?_⟩⟩
  intro h
  exact h 0 (List.mem_singleton.2 rfl) (List.mem_singleton.2 rfl)

/-- C2, at the failing input. With three frames, all of them selected, the
candidate pool is empty but the negative set that `start_export` computes is
`[0, 0, 0]`: it is longer than the candidate pool, and not empty. -/
theorem start_export_negative_set_exceeds_pool :
    store_in_range { initial_state with m_num_frames := 3, m_frame_indices := [0, 1, 2] } ∧
    candidate_pool 3 [0, 1, 2] = [] ∧
    ∀ rng : rng_state, ∃ s1,
      start_export rng
        { initial_state with m_num_frames := 3, m_frame_indices := [0, 1, 2] } = .ok s1 ∧
      s1.m_unselected_indices = [0, 0, 0] ∧
      (candidate_pool 3 [0, 1, 2]).length < s1.m_unselected_indices.length := by
  refine ⟨by decide, by decide, fun rng => ⟨_, rfl, rfl, ?_⟩⟩
  show (candidate_pool 3 [0, 1, 2]).length < ([0, 0, 0] : List Int).length
  decide

/-! ## Lemmas on the export scheduler -/

theorem sorted_getElem_rank :
    ∀ (S : List Int), S.Sorted (· < ·) → ∀ (k : Nat) (hk : k < S.length),
      (S.filter (fun y => decide (y < S[k]))).length = k := by
  intro S
  induction S with
  | nil => intro _ k hk; simp at hk
  | cons a as ih =>
    intro hS k hk
    rw [List.sorted_cons] at hS
    cases k with
    | zero =>
      simp only [List.getElem_cons_zero, List.length_eq_zero, List.filter_eq_nil_iff,
        decide_eq_true_eq, List.mem_cons]
      rintro y (h | h)
      · omega
      · have := hS.1 y h; omega
    | succ k =>
      have hk1 : k < as.length := by simpa using hk
      have ha : a < as[k] := hS.1 _ (List.getElem_mem hk1)
      simp only [List.getElem_cons_succ, List.filter_cons, ha, decide_True, if_true,
        List.length_cons, ih hS.2 k hk1]

theorem set_next_begin_eq (S : List Int) (k : Int) (h0 : 0 ≤ k) (hk : k.toNat < S.length) :
    set_next_begin S k = .ok S[k.toNat] := by
  unfold set_next_begin
  rw [if_pos h0, List.getElem?_eq_getElem hk]

theorem vector_at_eq (v : List Int) (k : Int) (h0 : 0 ≤ k) (hk : k.toNat < v.length)
    (hmax : k ≤ INT_MAX) : vector_at v k = .ok v[k.toNat] := by
  unfold vector_at
  simp only [static_cast_size_t_eq k h0 hmax]
  rw [List.getElem?_eq_getElem hk]


theorem selected_indices_append (w1 w2 : List export_record) :
    selected_indices (w1 ++ w2) = selected_indices w1 ++ selected_indices w2 := by
  simp [selected_indices]

theorem same_configuration_refl (s : app_state) : same_configuration s s :=
  ⟨rfl, rfl, rfl, rfl, rfl, rfl, rfl⟩

theorem same_configuration_trans {s s1 s2 : app_state} (h1 : same_configuration s s1)
    (h2 : same_configuration s1 s2) : same_configuration s s2 := by
  obtain ⟨a1, a2, a3, a4, a5, a6, a7⟩ := h1
  obtain ⟨b1, b2, b3, b4, b5, b6, b7⟩ := h2
  exact ⟨b1.trans a1, b2.trans a2, b3.trans a3, b4.trans a4, b5.trans a5, b6.trans a6,
    b7.trans a7⟩

theorem export_selected_spec (env : tick_env) (j : Nat) (s : app_state)
    (h0 : 0 ≤ s.m_current_export_frame)
    (hk : s.m_current_export_frame.toNat < s.m_frame_indices.length) :
    ∃ s1, export_selected env j s = .ok s1 ∧ same_configuration s s1 ∧
      s1.m_current_export_frame = s.m_current_export_frame ∧
      s1.m_in_export_state = s.m_in_export_state ∧
      selected_indices s1.written =
        selected_indices s.written ++ [s.m_frame_indices[s.m_current_export_frame.toNat]] := by
  have hx := set_next_begin_eq s.m_frame_indices s.m_current_export_frame h0 hk
  refine ⟨{ s with written := s.written ++
      [{ selected := true, path := export_path "1_" s.m_current_export_frame,
         index := s.m_frame_indices[s.m_current_export_frame.toNat],
         seek_failed := !env.seek_ok j 0, read_failed := !env.read_ok j 0,
         width := s.m_export_width, height := s.m_export_height }] }, ?_,
    same_configuration_refl s, rfl, rfl, ?_⟩
  · unfold export_selected
    simp only [hx]
  · simp [selected_indices]

theorem export_unselected_spec (env : tick_env) (j : Nat) (s : app_state)
    (h0 : 0 ≤ s.m_current_export_frame) (hmax : s.m_current_export_frame ≤ INT_MAX)
    (hU : s.m_export_unselected = true →
      s.m_current_export_frame.toNat < s.m_unselected_indices.length) :
    ∃ s1, export_unselected env j s = .ok s1 ∧ same_configuration s s1 ∧
      s1.m_current_export_frame = s.m_current_export_frame ∧
      s1.m_in_export_state = s.m_in_export_state ∧
      selected_indices s1.written = selected_indices s.written := by
  by_cases hu : s.m_export_unselected = true
  · have hku := hU hu
    have hy := vector_at_eq s.m_unselected_indices s.m_current_export_frame h0 hku hmax
    refine ⟨{ s with written := s.written ++
        [{ selected := false, path := export_path "0_" s.m_current_export_frame,
           index := s.m_unselected_indices[s.m_current_export_frame.toNat],
           seek_failed := !env.seek_ok j 2, read_failed := !env.read_ok j 1,
           width := s.m_export_width, height := s.m_export_height }] }, ?_,
      same_configuration_refl s, rfl, rfl, ?_⟩
    · unfold export_unselected
      simp only [hu, if_true, hy]
    · simp [selected_indices]
  · refine ⟨s, ?_, same_configuration_refl s, rfl, rfl, rfl⟩
    unfold export_unselected
    rw [if_neg hu]


theorem poll_export_loop_spec (env : tick_env) (t0 : Int) :
    ∀ (fuel j : Nat) (s : app_state),
      s.m_frame_indices.length < 2147483648 →
      0 ≤ s.m_current_export_frame →
      (s.m_export_unselected = true →
        s.m_frame_indices.length ≤ s.m_unselected_indices.length) →
      ((s.m_frame_indices.length : Int) - s.m_current_export_frame).toNat < fuel →
      ∃ s1, poll_export_loop env t0 fuel j s = .ok s1 ∧ same_configuration s s1 ∧
        s1.m_in_export_state = s.m_in_export_state ∧
        s.m_current_export_frame ≤ s1.m_current_export_frame ∧
        (s.m_current_export_frame < s.m_frame_indices.length →
          s.m_current_export_frame < s1.m_current_export_frame ∧
          s1.m_current_export_frame ≤ s.m_frame_indices.length) ∧
        ((s.m_frame_indices.length : Int) ≤ s.m_current_export_frame →
          s1.m_current_export_frame = s.m_current_export_frame) ∧
        selected_indices s1.written = selected_indices s.written ++
          (s.m_frame_indices.drop s.m_current_export_frame.toNat).take
            (s1.m_current_export_frame - s.m_current_export_frame).toNat := by
  intro fuel
  induction fuel with
  | zero => intro j s _ _ _ h; omega
  | succ fuel ih =>
    intro j s hN h0 hU hf
    unfold poll_export_loop
    rw [static_cast_int_eq _ hN]
    by_cases hc : s.m_current_export_frame < s.m_frame_indices.length
    · rw [if_pos hc]
      have hk : s.m_current_export_frame.toNat < s.m_frame_indices.length := by omega
      have hmax : INT_MAX = 2147483647 := rfl
      obtain ⟨s1, e1, c1, k1, r1, w1⟩ := export_selected_spec env j s h0 hk
      obtain ⟨s2, e2, c2, k2, r2, w2⟩ := export_unselected_spec env j s1
        (by rw [k1]; exact h0) (by rw [k1]; omega)
        (by
          intro hu
          rw [k1, c1.2.1]
          have := hU (by rw [← c1.2.2.2.1]; exact hu)
          omega)
      have c12 := same_configuration_trans c1 c2
      simp only [e1, e2]
      have hdrop : s.m_frame_indices.drop s.m_current_export_frame.toNat =
          s.m_frame_indices[s.m_current_export_frame.toNat] ::
            s.m_frame_indices.drop (s.m_current_export_frame.toNat + 1) :=
        List.drop_eq_getElem_cons hk
      by_cases ht : elapsed_ms t0 (env.now (j + 1)) > 50
      · rw [if_pos ht]
        refine ⟨_, rfl, c12, r2.trans r1, ?_, ?_, ?_, ?_⟩
        · show s.m_current_export_frame ≤ s2.m_current_export_frame + 1
          omega
        · intro _
          show s.m_current_export_frame < s2.m_current_export_frame + 1 ∧
            s2.m_current_export_frame + 1 ≤ s.m_frame_indices.length
          omega
        · intro h
          omega
        · show selected_indices s2.written = _ ++ List.take
            (s2.m_current_export_frame + 1 - s.m_current_export_frame).toNat _
          have h1 : (s2.m_current_export_frame + 1 - s.m_current_export_frame).toNat = 1 := by
            omega
          rw [w2, w1, h1, hdrop]
          rfl
      · rw [if_neg ht]
        obtain ⟨s4, e4, c4, r4, le4, lt4, ge4, w4⟩ := ih (j + 1)
          { s2 with m_current_export_frame := s2.m_current_export_frame + 1 }
          (by show s2.m_frame_indices.length < 2147483648; rw [c12.1]; exact hN)
          (by show 0 ≤ s2.m_current_export_frame + 1; omega)
          (by
            intro hu
            show s2.m_frame_indices.length ≤ s2.m_unselected_indices.length
            rw [c12.1, c12.2.1]
            exact hU (by rw [← c12.2.2.2.1]; exact hu))
          (by
            show ((s2.m_frame_indices.length : Int) - (s2.m_current_export_frame + 1)).toNat < fuel
            rw [c12.1]
            omega)
        have h5 : s2.m_current_export_frame + 1 ≤ s4.m_current_export_frame := le4
        have h6 : s2.m_current_export_frame + 1 < (s2.m_frame_indices.length : Int) →
            s2.m_current_export_frame + 1 < s4.m_current_export_frame ∧
            s4.m_current_export_frame ≤ s2.m_frame_indices.length := lt4
        have h7 : (s2.m_frame_indices.length : Int) ≤ s2.m_current_export_frame + 1 →
            s4.m_current_export_frame = s2.m_current_export_frame + 1 := ge4
        have h8 : selected_indices s4.written = selected_indices s2.written ++
            (s2.m_frame_indices.drop (s2.m_current_export_frame + 1).toNat).take
              (s4.m_current_export_frame - (s2.m_current_export_frame + 1)).toNat := w4
        rw [c12.1] at h6 h7 h8
        refine ⟨s4, e4, same_configuration_trans c12 c4, ?_, ?_, ?_, ?_, ?_⟩
        · exact r4.trans (r2.trans r1)
        · omega
        · intro _
          constructor
          · omega
          · by_cases h9 : s2.m_current_export_frame + 1 < (s.m_frame_indices.length : Int)
            · exact (h6 h9).2
            · have := h7 (by omega)
              omega
        · intro h
          omega
        · have e1 : (s2.m_current_export_frame + 1).toNat =
              s.m_current_export_frame.toNat + 1 := by omega
          have e2 : (s4.m_current_export_frame - s.m_current_export_frame).toNat =
              (s4.m_current_export_frame - (s2.m_current_export_frame + 1)).toNat + 1 := by
            omega
          rw [h8, w2, w1, e1, e2, hdrop, List.take_succ_cons, List.append_assoc]
          rfl
    · rw [if_neg hc]
      refine ⟨s, rfl, same_configuration_refl s, rfl, le_rfl, fun h => absurd h hc,
        fun _ => rfl, ?_⟩
      simp


theorem poll_export_idle (env : tick_env) (s : app_state)
    (hN : s.m_frame_indices.length < 2147483648)
    (hc : (s.m_frame_indices.length : Int) ≤ s.m_current_export_frame) :
    poll_export env s = .ok ({ s with m_in_export_state := false }, false) := by
  unfold poll_export
  rw [static_cast_int_eq _ hN, if_pos hc]

theorem poll_export_running (env : tick_env) (s : app_state) (hinv : export_invariant s)
    (hc : s.m_current_export_frame < s.m_frame_indices.length) :
    ∃ s1, poll_export env s = .ok (s1, true) ∧ same_configuration s s1 ∧
      s1.m_in_export_state = s.m_in_export_state ∧
      s.m_current_export_frame < s1.m_current_export_frame ∧
      s1.m_current_export_frame ≤ s.m_frame_indices.length ∧
      selected_indices s1.written = selected_indices s.written ++
        (s.m_frame_indices.drop s.m_current_export_frame.toNat).take
          (s1.m_current_export_frame - s.m_current_export_frame).toNat := by
  obtain ⟨hN, h0, _, hU⟩ := hinv
  obtain ⟨s1, e1, c1, r1, _, lt1, _, w1⟩ := poll_export_loop_spec env (env.now 0)
    (((s.m_frame_indices.length : Int) - s.m_current_export_frame).toNat + 1) 0 s hN h0 hU
    (by omega)
  refine ⟨s1, ?_, c1, r1, (lt1 hc).1, (lt1 hc).2, w1⟩
  unfold poll_export
  rw [static_cast_int_eq _ hN, if_neg (by omega)]
  simp only [e1]

theorem poll_export_calls_spec :
    ∀ (envs : List tick_env) (s : app_state), export_invariant s →
      ∃ s1, poll_export_calls envs s = .ok s1 ∧ same_configuration s s1 ∧
        export_invariant s1 ∧
        s.m_current_export_frame ≤ s1.m_current_export_frame ∧
        (s.m_in_export_state = false → s1.m_in_export_state = false) ∧
        (s1.m_current_export_frame < s.m_frame_indices.length →
          s1.m_in_export_state = s.m_in_export_state) ∧
        (((s.m_frame_indices.length : Int) - s.m_current_export_frame).toNat + 1 ≤ envs.length →
          s1.m_in_export_state = false ∧
          s1.m_current_export_frame = s.m_frame_indices.length) ∧
        selected_indices s1.written = selected_indices s.written ++
          (s.m_frame_indices.drop s.m_current_export_frame.toNat).take
            (s1.m_current_export_frame - s.m_current_export_frame).toNat := by
  intro envs
  induction envs with
  | nil =>
    intro s hinv
    refine ⟨s, rfl, same_configuration_refl s, hinv, le_rfl, fun h => h, fun _ => rfl, ?_, ?_⟩
    · intro h
      simp at h
    · simp
  | cons env envs ih =>
    intro s hinv
    obtain ⟨hN, h0, hle, hU⟩ := hinv
    by_cases hc : s.m_current_export_frame < s.m_frame_indices.length
    · obtain ⟨s1, e1, c1, r1, lt1, le1, w1⟩ := poll_export_running env s ⟨hN, h0, hle, hU⟩ hc
      have hinv1 : export_invariant s1 := by
        refine ⟨by rw [c1.1]; exact hN, by omega, by rw [c1.1]; exact le1, ?_⟩
        intro hu
        rw [c1.1, c1.2.1]
        exact hU (by rw [← c1.2.2.2.1]; exact hu)
      obtain ⟨s2, e2, c2, inv2, le2, r2, run2, fin2, w2⟩ := ih s1 hinv1
      rw [c1.1] at fin2 w2 run2
      refine ⟨s2, ?_, same_configuration_trans c1 c2, inv2, by omega, ?_, ?_, ?_, ?_⟩
      · simp only [poll_export_calls, e1, e2]
      · intro h
        exact r2 (by rw [r1]; exact h)
      · intro h
        exact (run2 h).trans r1
      · intro h
        simp only [List.length_cons] at h
        exact fin2 (by omega)
      · have hk : s.m_current_export_frame.toNat ≤ s.m_frame_indices.length := by omega
        have e3 : s1.m_current_export_frame.toNat = s.m_current_export_frame.toNat +
            (s1.m_current_export_frame - s.m_current_export_frame).toNat := by omega
        have e4 : (s2.m_current_export_frame - s.m_current_export_frame).toNat =
            (s1.m_current_export_frame - s.m_current_export_frame).toNat +
            (s2.m_current_export_frame - s1.m_current_export_frame).toNat := by omega
        rw [w2, w1, e3, e4, List.append_assoc, List.take_add, List.drop_drop]
    · have e1 := poll_export_idle env s hN (by omega)
      have hinv1 : export_invariant { s with m_in_export_state := false } := ⟨hN, h0, hle, hU⟩
      obtain ⟨s2, e2, c2, inv2, le2, r2, _, fin2, w2⟩ := ih _ hinv1
      have hle2 : s2.m_current_export_frame ≤ (s.m_frame_indices.length : Int) := by
        have h := inv2.2.2.1
        rw [c2.1] at h
        exact h
      have hle3 : s.m_current_export_frame ≤ s2.m_current_export_frame := le2
      refine ⟨s2, ?_, c2, inv2, le2, fun _ => r2 rfl, ?_, ?_, w2⟩
      · simp only [poll_export_calls, e1, e2]
      · intro h
        omega
      · intro _
        refine ⟨r2 rfl, ?_⟩
        have : s.m_current_export_frame ≤ s.m_frame_indices.length := hle
        omega


theorem start_export_invariant (rng : rng_state) (s : app_state) (hs : store_in_range s) :
    ∃ s1, start_export rng s = .ok s1 ∧ s1.m_frame_indices = s.m_frame_indices ∧
      s1.m_num_frames = s.m_num_frames ∧
      s1.m_export_unselected = s.m_export_unselected ∧
      s1.m_unselected_indices.length = s.m_frame_indices.length ∧
      s1.m_in_export_state = true ∧ s1.m_current_export_frame = 0 ∧
      s1.written = s.written ∧ export_invariant s1 := by
  obtain ⟨shuffled, _, hstart⟩ := start_export_spec rng s
  rw [min_size_eq s hs] at hstart
  have hN := (store_in_range_length s hs).2.2
  have hlen := vector_resize_length shuffled s.m_frame_indices.length
  refine ⟨_, hstart, rfl, rfl, rfl, hlen, rfl, rfl, rfl, hN, le_rfl, ?_, ?_⟩
  · exact Int.ofNat_nonneg _
  · intro _
    exact le_of_eq hlen.symm

theorem export_run_spec (rng : rng_state) (envs : List tick_env) (s : app_state)
    (hs : store_in_range s) :
    ∃ s1, export_run rng envs s = .ok s1 ∧ s1.m_frame_indices = s.m_frame_indices ∧
      s1.m_export_unselected = s.m_export_unselected ∧
      s1.m_unselected_indices.length = s.m_frame_indices.length ∧
      export_invariant s1 ∧
      (s.m_frame_indices.length + 1 ≤ envs.length → s1.m_in_export_state = false) ∧
      (s1.m_current_export_frame < s.m_frame_indices.length → s1.m_in_export_state = true) ∧
      selected_indices s1.written = selected_indices s.written ++
        s.m_frame_indices.take s1.m_current_export_frame.toNat := by
  obtain ⟨s1, e1, f1, _, u1, l1, r1, k1, w1, inv1⟩ := start_export_invariant rng s hs
  obtain ⟨s2, e2, c2, inv2, _, _, run2, fin2, w2⟩ := poll_export_calls_spec envs s1 inv1
  rw [f1, r1] at run2
  rw [f1, k1] at fin2
  rw [f1, k1, w1] at w2
  refine ⟨s2, ?_, c2.1.trans f1, c2.2.2.2.1.trans u1, ?_, inv2, ?_, run2, ?_⟩
  · unfold export_run
    simp only [e1, e2]
  · rw [c2.2.1, l1]
  · intro h
    exact (fin2 (by omega)).1
  · rw [w2]
    simp

/-! ## The export scheduler: claims -/

/-- C4. For a selection store `S` (a `std::set<int>`, strictly ascending): at a cursor `k` with `0 ≤ k < |S|` the block of `poll_export` for the
selected class writes one item whose frame index is the element of `S` that has
exactly `k` elements of `S` below it. Hence over a full run (cursor `0` to the
end, `|S| + 1` calls of `poll_export` or more) the scheduler ends idle and the
frame indices of the selected class written during the run are `S` itself:
strictly ascending, each index once. The same holds of the run that
`start_export` starts on a store inside `[0, m_num_frames)`. -/
theorem poll_export_selected_order (S : List Int) (hS : S.Sorted (· < ·)) :
    (∀ (env : tick_env) (j : Nat) (s : app_state), s.m_frame_indices = S →
      0 ≤ s.m_current_export_frame → s.m_current_export_frame < S.length →
      ∃ (s1 : app_state) (r : export_record), export_selected env j s = .ok s1 ∧
        s1.written = s.written ++ [r] ∧ r.selected = true ∧ r.index ∈ S ∧
        ((S.filter (fun y => decide (y < r.index))).length : Int) = s.m_current_export_frame) ∧
    (∀ (envs : List tick_env) (s : app_state), s.m_frame_indices = S →
      s.m_current_export_frame = 0 → export_invariant s → S.length + 1 ≤ envs.length →
      ∃ (s1 : app_state) (exported : List Int),
        poll_export_calls envs s = .ok s1 ∧ s1.m_in_export_state = false ∧
        selected_indices s1.written = selected_indices s.written ++ exported ∧
        exported = S ∧ exported.Sorted (· < ·) ∧ exported.Nodup) ∧
    (∀ (rng : rng_state) (envs : List tick_env) (s : app_state), s.m_frame_indices = S →
      store_in_range s → S.length + 1 ≤ envs.length →
      ∃ s1, export_run rng envs s = .ok s1 ∧ s1.m_in_export_state = false ∧
        selected_indices s1.written = selected_indices s.written ++ S) := by
  refine ⟨?_, ?_, ?_⟩
  · intro env j s hs h0 hc
    subst hs
    have hk : s.m_current_export_frame.toNat < s.m_frame_indices.length := by omega
    have hx := set_next_begin_eq s.m_frame_indices s.m_current_export_frame h0 hk
    refine ⟨{ s with written := s.written ++
        [{ selected := true, path := export_path "1_" s.m_current_export_frame,
           index := s.m_frame_indices[s.m_current_export_frame.toNat],
           seek_failed := !env.seek_ok j 0, read_failed := !env.read_ok j 0,
           width := s.m_export_width, height := s.m_export_height }] }, _, ?_, rfl, rfl,
      List.getElem_mem hk, ?_⟩
    · unfold export_selected
      simp only [hx]
    · show ((s.m_frame_indices.filter (fun y =>
        decide (y < s.m_frame_indices[s.m_current_export_frame.toNat]))).length : Int) = _
      rw [sorted_getElem_rank s.m_frame_indices hS _ hk]
      omega
  · intro envs s hs h0 hinv hlen
    subst hs
    obtain ⟨s1, e1, _, _, _, _, _, fin1, w1⟩ := poll_export_calls_spec envs s hinv
    have hfin := fin1 (by omega)
    refine ⟨s1, s.m_frame_indices, e1, hfin.1, ?_, rfl, hS, hS.nodup⟩
    rw [w1, hfin.2, h0]
    simp
  · intro rng envs s hs hr hlen
    subst hs
    obtain ⟨s1, e1, f1, _, _, inv1, fin1, run1, w1⟩ := export_run_spec rng envs s hr
    have hidle := fin1 hlen
    have hle := inv1.2.2.1
    rw [f1] at hle
    have hge : ¬ s1.m_current_export_frame < s.m_frame_indices.length := by
      intro h
      have := run1 h
      rw [hidle] at this
      exact Bool.noConfusion this
    have hc : s1.m_current_export_frame.toNat = s.m_frame_indices.length := by omega
    refine ⟨s1, e1, hidle, ?_⟩
    rw [w1, hc, List.take_length]


theorem poll_export_selected_order_witness :
    List.Sorted (· < ·) [(2 : Int), 3, 4] ∧
    (export_run ⟨fun k => 7 * k + 3, 0⟩
        [⟨fun k => k, fun _ _ => true, fun _ _ => true⟩,
         ⟨fun k => k, fun _ _ => true, fun _ _ => true⟩]
        { initial_state with m_num_frames := 10, m_frame_indices := [2, 3, 4] }).map
      (fun s => (s.written.filter (fun r => r.selected)).map (fun r => (r.path, r.index)))
      = .ok [("1_00000000.png", 2), ("1_00000001.png", 3), ("1_00000002.png", 4)] ∧
    ((∀ (env : tick_env) (j : Nat) (s : app_state), s.m_frame_indices = [2, 3, 4] →
      0 ≤ s.m_current_export_frame → s.m_current_export_frame < ([2, 3, 4] : List Int).length →
      ∃ (s1 : app_state) (r : export_record), export_selected env j s = .ok s1 ∧
        s1.written = s.written ++ [r] ∧ r.selected = true ∧ r.index ∈ ([2, 3, 4] : List Int) ∧
        ((([2, 3, 4] : List Int).filter (fun y => decide (y < r.index))).length : Int) =
          s.m_current_export_frame) ∧
    (∀ (envs : List tick_env) (s : app_state), s.m_frame_indices = [2, 3, 4] →
      s.m_current_export_frame = 0 → export_invariant s →
      ([2, 3, 4] : List Int).length + 1 ≤ envs.length →
      ∃ (s1 : app_state) (exported : List Int),
        poll_export_calls envs s = .ok s1 ∧ s1.m_in_export_state = false ∧
        selected_indices s1.written = selected_indices s.written ++ exported ∧
        exported = [2, 3, 4] ∧ exported.Sorted (· < ·) ∧ exported.Nodup) ∧
    (∀ (rng : rng_state) (envs : List tick_env) (s : app_state), s.m_frame_indices = [2, 3, 4] →
      store_in_range s → ([2, 3, 4] : List Int).length + 1 ≤ envs.length →
      ∃ s1, export_run rng envs s = .ok s1 ∧ s1.m_in_export_state = false ∧
        selected_indices s1.written = selected_indices s.written ++ [2, 3, 4])) :=
  ⟨by decide, by decide, poll_export_selected_order [2, 3, 4] (by decide)⟩

/-- C6, counterexample. With one selected frame (`N = 1`) the scheduler that
`start_export` leaves is still running after `0` calls and after `1` call of
`poll_export`: the call that exports the frame does not flip the state. And
with one selected frame that is not a frame of the video (`m_num_frames = 0`)
the first call raises instead of returning. -/
theorem export_run_not_idle_after_N_calls :
    store_in_range { initial_state with m_num_frames := 2, m_frame_indices := [0] } ∧
    (export_run ⟨fun _ => 0, 0⟩ []
        { initial_state with m_num_frames := 2, m_frame_indices := [0] }).map
      (fun s => s.m_in_export_state) = .ok true ∧
    (export_run ⟨fun _ => 0, 0⟩ [⟨fun k => k, fun _ _ => true, fun _ _ => true⟩]
        { initial_state with m_num_frames := 2, m_frame_indices := [0] }).map
      (fun s => s.m_in_export_state) = .ok true ∧
    (export_run ⟨fun _ => 0, 0⟩ [⟨fun k => 100000000 * k, fun _ _ => true, fun _ _ => true⟩]
        { initial_state with m_num_frames := 0, m_frame_indices := [0] }).map
      (fun s => s.m_in_export_state) = .error .out_of_range := by
  decide

/-- C6, amended. Starting from the state that `start_export` leaves for a store of
`N` selected frames inside `[0, m_num_frames)`, for every behaviour of the clock
and of the video capture, the calls of `poll_export` all return and the scheduler
is idle (`m_in_export_state` is false) once `N + 1` calls have been made. -/
theorem export_run_idle_after_succ_N_calls (rng : rng_state) (envs : List tick_env)
    (s : app_state) (hs : store_in_range s)
    (hlen : s.m_frame_indices.length + 1 ≤ envs.length) :
    ∃ s1, export_run rng envs s = .ok s1 ∧ s1.m_in_export_state = false := by
  obtain ⟨s1, e1, _, _, _, _, fin1, _⟩ := export_run_spec rng envs s hs
  exact ⟨s1, e1, fin1 hlen⟩

theorem export_run_idle_after_succ_N_calls_witness :
    store_in_range { initial_state with m_num_frames := 2, m_frame_indices := [0] } ∧
    ([0] : List Int).length + 1 ≤
      ([⟨fun k => k, fun _ _ => true, fun _ _ => true⟩,
        ⟨fun k => k, fun _ _ => true, fun _ _ => true⟩] : List tick_env).length ∧
    ∃ s1, export_run ⟨fun _ => 0, 0⟩
        [⟨fun k => k, fun _ _ => true, fun _ _ => true⟩,
         ⟨fun k => k, fun _ _ => true, fun _ _ => true⟩]
        { initial_state with m_num_frames := 2, m_frame_indices := [0] } = .ok s1 ∧
      s1.m_in_export_state = false :=
  ⟨by decide, by decide,
    export_run_idle_after_succ_N_calls ⟨fun _ => 0, 0⟩
      [⟨fun k => k, fun _ _ => true, fun _ _ => true⟩,
       ⟨fun k => k, fun _ _ => true, fun _ _ => true⟩]
      { initial_state with m_num_frames := 2, m_frame_indices := [0] }
      (by decide) (by decide)⟩

/-- C7, counterexample. With the export width set to zero and the trigger queued,
`process_export` enters the running state. -/
theorem process_export_zero_width_runs :
    (process_export ⟨fun _ => 0, 0⟩
        { initial_state with m_export_width := 0, m_export_queued := true }).map
      (fun s => (s.m_export_width, s.m_in_export_state)) = .ok (0, true) := by
  decide

/-- C7, amended. For every state, whatever the export width and height, also zero
or negative, `process_export` with the trigger queued returns and enters the
running state: `m_in_export_state` is true, the cursor is `0`, the trigger is
cleared, and the width and the height are left as they were. -/
theorem process_export_enters_running (rng : rng_state) (s : app_state)
    (hq : s.m_export_queued = true) :
    ∃ s1, process_export rng s = .ok s1 ∧ s1.m_in_export_state = true ∧
      s1.m_current_export_frame = 0 ∧ s1.m_export_queued = false ∧
      s1.m_export_width = s.m_export_width ∧ s1.m_export_height = s.m_export_height := by
  obtain ⟨shuffled, _, hstart⟩ := start_export_spec rng s
  simp only [process_export, hq, if_true, hstart]
  exact ⟨_, rfl, rfl, rfl, rfl, rfl, rfl⟩

theorem process_export_enters_running_witness :
    ({ initial_state with
        m_export_width := (-3), m_export_height := 0,
        m_export_queued := true } : app_state).m_export_queued = true ∧
    ∃ s1, process_export ⟨fun _ => 0, 0⟩
        { initial_state with
          m_export_width := (-3), m_export_height := 0,
          m_export_queued := true } = .ok s1 ∧ s1.m_in_export_state = true ∧
      s1.m_current_export_frame = 0 ∧ s1.m_export_queued = false ∧
      s1.m_export_width = (-3) ∧ s1.m_export_height = 0 :=
  ⟨rfl, process_export_enters_running ⟨fun _ => 0, 0⟩
    { initial_state with m_export_width := (-3), m_export_height := 0, m_export_queued := true }
    rfl⟩


/-- C8, counterexample. With no frames (`m_num_frames = 0`) and the store `{0}`,
`start_export` leaves an empty `m_unselected_indices`, and the first call of
`poll_export` with unselected export enabled raises `std::out_of_range` from
`m_unselected_indices.at(0)`. -/
theorem poll_export_raises_out_of_range :
    ({ initial_state with m_num_frames := 0, m_frame_indices := [0] } : app_state).m_export_unselected
      = true ∧
    (start_export ⟨fun _ => 0, 0⟩
        { initial_state with m_num_frames := 0, m_frame_indices := [0] }).map
      (fun s => s.m_unselected_indices) = .ok [] ∧
    export_run ⟨fun _ => 0, 0⟩ [⟨fun k => k, fun _ _ => true, fun _ _ => true⟩]
        { initial_state with m_num_frames := 0, m_frame_indices := [0] }
      = .error .out_of_range := by
  decide

/-- C8, amended. For a selection store inside `[0, m_num_frames)`, with unselected
export enabled, in every state reached from `start_export` by calls of
`poll_export`, a further call of `poll_export` returns without raising; while the
cursor is below the size of the store both lookups succeed: the cursor-th element
of the store and `m_unselected_indices.at(cursor)`. -/
theorem poll_export_does_not_raise (rng : rng_state) (envs : List tick_env) (env : tick_env)
    (s : app_state) (hs : store_in_range s) (hu : s.m_export_unselected = true) :
    ∃ s1, export_run rng envs s = .ok s1 ∧
      (∃ r, poll_export env s1 = .ok r) ∧
      (s1.m_current_export_frame < s1.m_frame_indices.length →
        (∃ x, set_next_begin s1.m_frame_indices s1.m_current_export_frame = .ok x) ∧
        (∃ y, vector_at s1.m_unselected_indices s1.m_current_export_frame = .ok y)) := by
  obtain ⟨s1, e1, f1, u1, l1, inv1, _, _, _⟩ := export_run_spec rng envs s hs
  refine ⟨s1, e1, ?_, ?_⟩
  · by_cases hc : s1.m_current_export_frame < s1.m_frame_indices.length
    · obtain ⟨s2, e2, _⟩ := poll_export_running env s1 inv1 hc
      exact ⟨_, e2⟩
    · exact ⟨_, poll_export_idle env s1 inv1.1 (by omega)⟩
  · intro hc
    obtain ⟨hN, h0, _, hU⟩ := inv1
    have hk : s1.m_current_export_frame.toNat < s1.m_frame_indices.length := by omega
    have hku : s1.m_current_export_frame.toNat < s1.m_unselected_indices.length :=
      lt_of_lt_of_le hk (hU (u1.trans hu))
    have hmax : s1.m_current_export_frame ≤ INT_MAX := by
      have : INT_MAX = 2147483647 := rfl
      omega
    exact ⟨⟨_, set_next_begin_eq _ _ h0 hk⟩, ⟨_, vector_at_eq _ _ h0 hku hmax⟩⟩

theorem poll_export_does_not_raise_witness :
    store_in_range { initial_state with m_num_frames := 10, m_frame_indices := [2, 3, 4] } ∧
    ({ initial_state with
        m_num_frames := 10, m_frame_indices := [2, 3, 4] } : app_state).m_export_unselected = true ∧
    ∃ s1, export_run ⟨fun k => 7 * k + 3, 0⟩
        [⟨fun k => 100000000 * k, fun _ _ => false, fun _ _ => false⟩]
        { initial_state with m_num_frames := 10, m_frame_indices := [2, 3, 4] } = .ok s1 ∧
      (∃ r, poll_export ⟨fun k => 100000000 * k, fun _ _ => false, fun _ _ => false⟩ s1 = .ok r) ∧
      (s1.m_current_export_frame < s1.m_frame_indices.length →
        (∃ x, set_next_begin s1.m_frame_indices s1.m_current_export_frame = .ok x) ∧
        (∃ y, vector_at s1.m_unselected_indices s1.m_current_export_frame = .ok y)) :=
  ⟨by decide, rfl,
    poll_export_does_not_raise ⟨fun k => 7 * k + 3, 0⟩
      [⟨fun k => 100000000 * k, fun _ _ => false, fun _ _ => false⟩]
      ⟨fun k => 100000000 * k, fun _ _ => false, fun _ _ => false⟩
      { initial_state with m_num_frames := 10, m_frame_indices := [2, 3, 4] }
      (by decide) rfl⟩

/-- C9. For a selection store of `N` frames inside `[0, m_num_frames)`, every
behaviour of the clock and every outcome of seek and read: in each state `s1` of
a run started by `start_export` the store is the one the run started with and
the cursor lies in `[0, N]`; a call of `poll_export` that starts running with a
cursor `c < N` returns `true`, is still running, changes nothing of the
configuration and leaves a cursor `c1` with `c < c1 ≤ N`; a call that starts with
a cursor `≥ N` returns `false` and changes nothing except that it sets
`m_in_export_state` to false; and the run is idle once `N + 1` calls were made. -/
theorem poll_export_progress (rng : rng_state) (envs : List tick_env) (env : tick_env)
    (s : app_state) (hs : store_in_range s) :
    ∃ s1, export_run rng envs s = .ok s1 ∧
      s1.m_frame_indices = s.m_frame_indices ∧
      0 ≤ s1.m_current_export_frame ∧
      s1.m_current_export_frame ≤ s.m_frame_indices.length ∧
      (s1.m_in_export_state = true → s1.m_current_export_frame < s.m_frame_indices.length →
        ∃ s2, poll_export env s1 = .ok (s2, true) ∧ s2.m_in_export_state = true ∧
          same_configuration s1 s2 ∧
          s1.m_current_export_frame < s2.m_current_export_frame ∧
          s2.m_current_export_frame ≤ s.m_frame_indices.length) ∧
      ((s.m_frame_indices.length : Int) ≤ s1.m_current_export_frame →
        poll_export env s1 = .ok ({ s1 with m_in_export_state := false }, false)) ∧
      (s.m_frame_indices.length + 1 ≤ envs.length → s1.m_in_export_state = false) := by
  obtain ⟨s1, e1, f1, u1, l1, inv1, fin1, _, _⟩ := export_run_spec rng envs s hs
  have hle := inv1.2.2.1
  rw [f1] at hle
  refine ⟨s1, e1, f1, inv1.2.1, hle, ?_, ?_, fin1⟩
  · intro hr hc
    obtain ⟨s2, e2, c2, r2, lt2, le2, _⟩ := poll_export_running env s1 inv1 (by rw [f1]; exact hc)
    rw [f1] at le2
    exact ⟨s2, e2, r2.trans hr, c2, lt2, le2⟩
  · intro hc
    exact poll_export_idle env s1 inv1.1 (by rw [f1]; exact hc)

theorem poll_export_progress_witness :
    store_in_range { initial_state with m_num_frames := 10, m_frame_indices := [2, 3, 4] } ∧
    ∃ s1, export_run ⟨fun k => 7 * k + 3, 0⟩
        [⟨fun k => 100000000 * k, fun _ _ => false, fun _ _ => false⟩]
        { initial_state with m_num_frames := 10, m_frame_indices := [2, 3, 4] } = .ok s1 ∧
      s1.m_frame_indices = [2, 3, 4] ∧
      0 ≤ s1.m_current_export_frame ∧
      s1.m_current_export_frame ≤ ([2, 3, 4] : List Int).length ∧
      (s1.m_in_export_state = true →
        s1.m_current_export_frame < ([2, 3, 4] : List Int).length →
        ∃ s2, poll_export ⟨fun k => k, fun _ _ => true, fun _ _ => false⟩ s1 = .ok (s2, true) ∧
          s2.m_in_export_state = true ∧ same_configuration s1 s2 ∧
          s1.m_current_export_frame < s2.m_current_export_frame ∧
          s2.m_current_export_frame ≤ ([2, 3, 4] : List Int).length) ∧
      ((([2, 3, 4] : List Int).length : Int) ≤ s1.m_current_export_frame →
        poll_export ⟨fun k => k, fun _ _ => true, fun _ _ => false⟩ s1 =
          .ok ({ s1 with m_in_export_state := false }, false)) ∧
      (([2, 3, 4] : List Int).length + 1 ≤
          ([⟨fun k => 100000000 * k, fun _ _ => false, fun _ _ => false⟩] : List tick_env).length →
        s1.m_in_export_state = false) :=
  ⟨by decide,
    poll_export_progress ⟨fun k => 7 * k + 3, 0⟩
      [⟨fun k => 100000000 * k, fun _ _ => false, fun _ _ => false⟩]
      ⟨fun k => k, fun _ _ => true, fun _ _ => false⟩
      { initial_state with m_num_frames := 10, m_frame_indices := [2, 3, 4] }
      (by decide)⟩

end VideoTool
